import Mathlib

/-!
Verification of the Antigravity quota-management engine.

The development shallowly embeds the quota polling and discovery engine:
the group aggregation and low-quota notification logic of
`src/services/QuotaService.ts` (`checkLowQuota`, `refresh`), the display
aggregation of `updateStatusBar`, and the port enumeration of
`src/services/ProcessFinder.ts` (`findLanguageServerPorts`).

Numbers: `remainingFraction` values are embedded as rationals; JavaScript
`Math.round` is `round` (round half towards positive infinity); machine
timestamps are naturals counting milliseconds.
-/

set_option allowUnsafeReducibility true
set_option linter.unusedVariables false

attribute [local semireducible] Rat.mul Rat.add Rat.sub Rat.inv

namespace AntigravityQuota

/-- Quota information attached to a model record (the `quotaInfo` object of the
JSON payload, with fields `remainingFraction` and `resetTime`). -/
structure QuotaInfo where
  remainingFraction : Option ℚ
  resetTime : Option String
deriving Repr, DecidableEq

/-- A model quota record (an element of `clientModelConfigs`). -/
structure ModelRecord where
  label : String
  quotaInfo : Option QuotaInfo
deriving Repr, DecidableEq

/-- The effective remaining fraction of a record: the embedding of the
expression `m.quotaInfo?.remainingFraction ?? 1` (absent fraction counts 1). -/
def ModelRecord.frac (m : ModelRecord) : ℚ :=
  (m.quotaInfo.bind QuotaInfo.remainingFraction).getD 1

/-- A configured group: unique display name plus label patterns. -/
structure GroupDef where
  name : String
  patterns : List String
deriving Repr, DecidableEq

/-- Case-insensitive substring test: the embedding of
`hay.toLowerCase().includes(needle.toLowerCase())`. -/
def lowerIncludes (hay needle : String) : Bool :=
  (hay.data.map Char.toLower).tails.any
    (fun t => List.isPrefixOf (needle.data.map Char.toLower) t)

/-- Group membership of one record: the embedding of
`patterns.some(p => m.label.toLowerCase().includes(p.toLowerCase()))`. -/
def labelMatches (patterns : List String) (m : ModelRecord) : Bool :=
  patterns.any (fun p => lowerIncludes m.label p)

/-- The matching records of a group, in record order: the embedding of
`models.filter(m => patterns.some(...))`. -/
def groupModels (models : List ModelRecord) (patterns : List String) :
    List ModelRecord :=
  models.filter (labelMatches patterns)

/-- The embedding of the worst-record selection
`arr.reduce((prev, curr) => (curr.frac < prev.frac) ? curr : prev)`:
a JavaScript `reduce` without seed starts from the first element. -/
def reduceWorst (prev : ModelRecord) : List ModelRecord → ModelRecord
  | [] => prev
  | curr :: rest => reduceWorst (if curr.frac < prev.frac then curr else prev) rest

theorem reduceWorst_cons (prev c : ModelRecord) (rest : List ModelRecord) :
    reduceWorst prev (c :: rest)
      = reduceWorst (if c.frac < prev.frac then c else prev) rest := rfl

/-- Minimum of `q` and the effective fractions of `ms` (specification-side
description of the value `reduceWorst` selects). -/
def minFracQ (q : ℚ) (ms : List ModelRecord) : ℚ :=
  ms.foldl (fun a x => min a x.frac) q

theorem minFracQ_cons (q : ℚ) (c : ModelRecord) (rest : List ModelRecord) :
    minFracQ q (c :: rest) = minFracQ (min q c.frac) rest := rfl

/-- The first record of a list whose effective fraction equals `target`
(specification-side description of "first encountered minimum wins"). -/
def firstMin (target : ℚ) : List ModelRecord → Option ModelRecord
  | [] => none
  | x :: xs => if x.frac = target then some x else firstMin target xs

/-- Worst-case integer percentage of a group: the embedding of
`Math.round(minFrac * 100)` from `updateStatusBar`, `none` when no record
matches (the group renders as unmatched). -/
def worstPercent (models : List ModelRecord) (patterns : List String) :
    Option ℤ :=
  match groupModels models patterns with
  | [] => none
  | m :: ms => some (round ((reduceWorst m ms).frac * 100))

theorem minFracQ_le_init (ms : List ModelRecord) :
    ∀ q : ℚ, minFracQ q ms ≤ q := by
  induction ms with
  | nil => intro q; simp [minFracQ]
  | cons c rest ih =>
      intro q
      calc minFracQ q (c :: rest) = minFracQ (min q c.frac) rest :=
            minFracQ_cons q c rest
        _ ≤ min q c.frac := ih (min q c.frac)
        _ ≤ q := min_le_left _ _

theorem minFracQ_le_mem (ms : List ModelRecord) :
    ∀ q : ℚ, ∀ x ∈ ms, minFracQ q ms ≤ x.frac := by
  induction ms with
  | nil => intro q x hx; simp at hx
  | cons c rest ih =>
      intro q x hx
      rcases List.mem_cons.mp hx with h | h
      · subst h
        calc minFracQ q (x :: rest) = minFracQ (min q x.frac) rest :=
              minFracQ_cons q x rest
          _ ≤ min q x.frac := minFracQ_le_init rest _
          _ ≤ x.frac := min_le_right _ _
      · exact ih (min q c.frac) x h

theorem reduceWorst_frac (ms : List ModelRecord) :
    ∀ prev, (reduceWorst prev ms).frac = minFracQ prev.frac ms := by
  induction ms with
  | nil => intro prev; simp [reduceWorst, minFracQ]
  | cons c rest ih =>
      intro prev
      rw [reduceWorst_cons, minFracQ_cons]
      by_cases h : c.frac < prev.frac
      · rw [if_pos h, ih c, min_eq_right h.le]
      · rw [if_neg h, ih prev, min_eq_left (le_of_not_lt h)]

theorem reduceWorst_mem (ms : List ModelRecord) :
    ∀ prev, reduceWorst prev ms ∈ prev :: ms := by
  induction ms with
  | nil => intro prev; simp [reduceWorst]
  | cons c rest ih =>
      intro prev
      rw [reduceWorst_cons]
      by_cases h : c.frac < prev.frac
      · rw [if_pos h]
        exact List.mem_cons_of_mem prev (ih c)
      · rw [if_neg h]
        rcases List.mem_cons.mp (ih prev) with h1 | h1
        · rw [h1]
          exact List.mem_cons_self _ _
        · exact List.mem_cons.mpr (Or.inr (List.mem_cons_of_mem _ h1))

theorem reduceWorst_first (ms : List ModelRecord) :
    ∀ prev, firstMin (minFracQ prev.frac ms) (prev :: ms)
      = some (reduceWorst prev ms) := by
  induction ms with
  | nil =>
      intro prev
      simp [firstMin, minFracQ, reduceWorst]
  | cons c rest ih =>
      intro prev
      rw [reduceWorst_cons, minFracQ_cons]
      by_cases h : c.frac < prev.frac
      · -- the tail strictly improves on `prev`, so `prev` misses the minimum
        rw [if_pos h, min_eq_right h.le]
        have hne : prev.frac ≠ minFracQ c.frac rest := by
          intro heq
          have hle : minFracQ c.frac rest ≤ c.frac := minFracQ_le_init rest _
          exact absurd h (not_lt.mpr (heq ▸ hle))
        show (if prev.frac = minFracQ c.frac rest then some prev
              else firstMin (minFracQ c.frac rest) (c :: rest))
            = some (reduceWorst c rest)
        rw [if_neg hne]
        exact ih c
      · rw [if_neg h, min_eq_left (le_of_not_lt h)]
        by_cases hprev : prev.frac = minFracQ prev.frac rest
        · -- the head already attains the minimum and `reduceWorst` keeps it
          have hkeep : reduceWorst prev rest = prev := by
            have := ih prev
            rw [show firstMin (minFracQ prev.frac rest) (prev :: rest)
                  = if prev.frac = minFracQ prev.frac rest then some prev
                    else firstMin (minFracQ prev.frac rest) rest from rfl,
                if_pos hprev] at this
            exact (Option.some_inj.mp this).symm
          show (if prev.frac = minFracQ prev.frac rest then some prev
                else firstMin (minFracQ prev.frac rest) (c :: rest))
              = some (reduceWorst prev rest)
          rw [if_pos hprev, hkeep]
        · have hlt : minFracQ prev.frac rest < prev.frac :=
            lt_of_le_of_ne (minFracQ_le_init rest _) (fun hcon => hprev hcon.symm)
          have hnc : c.frac ≠ minFracQ prev.frac rest := by
            intro hcon
            exact h (hcon ▸ hlt)
          show (if prev.frac = minFracQ prev.frac rest then some prev
                else firstMin (minFracQ prev.frac rest) (c :: rest))
              = some (reduceWorst prev rest)
          rw [if_neg hprev]
          show (if c.frac = minFracQ prev.frac rest then some c
                else firstMin (minFracQ prev.frac rest) rest)
              = some (reduceWorst prev rest)
          rw [if_neg hnc]
          have := ih prev
          rw [show firstMin (minFracQ prev.frac rest) (prev :: rest)
                = if prev.frac = minFracQ prev.frac rest then some prev
                  else firstMin (minFracQ prev.frac rest) rest from rfl,
              if_neg hprev] at this
          exact this

/-- C1: whenever a group has at least one matching record, its worst-case
percentage is `round (100 * m)` for `m` the minimum effective fraction of the
matches (absent fractions counting 1), and the record the code reports is the
first match, in record order, attaining that minimum. -/
theorem worstPercent_correct (models : List ModelRecord) (patterns : List String)
    (m : ModelRecord) (ms : List ModelRecord)
    (h : groupModels models patterns = m :: ms) :
    worstPercent models patterns = some (round (100 * minFracQ m.frac ms)) ∧
    (∀ x ∈ groupModels models patterns, minFracQ m.frac ms ≤ x.frac) ∧
    reduceWorst m ms ∈ groupModels models patterns ∧
    (reduceWorst m ms).frac = minFracQ m.frac ms ∧
    firstMin (minFracQ m.frac ms) (groupModels models patterns)
      = some (reduceWorst m ms) := by
  refine ⟨?_, ?_, ?_, reduceWorst_frac ms m, ?_⟩
  · simp [worstPercent, h, reduceWorst_frac ms m, mul_comm]
  · intro x hx
    rw [h] at hx
    rcases List.mem_cons.mp hx with h1 | h1
    · subst h1
      exact minFracQ_le_init ms _
    · exact minFracQ_le_mem ms m.frac x h1
  · rw [h]
    exact reduceWorst_mem ms m
  · rw [h]
    exact reduceWorst_first ms m

/-! Embedding of the low-quota notification check (`checkLowQuota`). -/

/-- Accumulator of the per-group loop of `checkLowQuota`: the evolving
`notifiedGroups` set, the `currentNotifiedGroups` set built during the loop,
and the warnings emitted so far (group names in emission order). -/
structure CheckAcc where
  notified : Finset String
  current : Finset String
  warnings : List String
deriving DecidableEq

/-- One iteration of the `for (const group of groups)` loop of
`checkLowQuota`: skip unmatched groups, compare the unrounded percentage
`remaining = worst.frac * 100` against the threshold, warn at most once. -/
def checkGroup (threshold : ℚ) (models : List ModelRecord) (acc : CheckAcc)
    (g : GroupDef) : CheckAcc :=
  match groupModels models g.patterns with
  | [] => acc
  | m :: ms =>
      if (reduceWorst m ms).frac * 100 ≤ threshold then
        if g.name ∈ acc.notified then
          { acc with current := insert g.name acc.current }
        else
          { notified := insert g.name acc.notified
            current := insert g.name acc.current
            warnings := acc.warnings ++ [g.name] }
      else acc

/-- The embedding of `checkLowQuota`: run the loop over the configured groups,
then delete every notified name that is not in `currentNotifiedGroups`.
Returns the new `notifiedGroups` set together with the emitted warnings. -/
def checkLowQuota (threshold : ℚ) (models : List ModelRecord)
    (groups : List GroupDef) (notified : Finset String) :
    Finset String × List String :=
  let acc := groups.foldl (checkGroup threshold models) ⟨notified, ∅, []⟩
  (acc.notified.filter (fun n => n ∈ acc.current), acc.warnings)

/-- Whether a group is currently "low": at least one matching record and the
unrounded worst percentage at most the threshold (the guard of the code). -/
def lowGroup (threshold : ℚ) (models : List ModelRecord) (g : GroupDef) : Bool :=
  match groupModels models g.patterns with
  | [] => false
  | m :: ms => decide ((reduceWorst m ms).frac * 100 ≤ threshold)

/-- The set of names of currently low groups. -/
def lowNames (threshold : ℚ) (models : List ModelRecord) :
    List GroupDef → Finset String
  | [] => ∅
  | g :: gs =>
      if lowGroup threshold models g
      then insert g.name (lowNames threshold models gs)
      else lowNames threshold models gs

theorem mem_lowNames (threshold : ℚ) (models : List ModelRecord)
    (n : String) : ∀ gs : List GroupDef,
    n ∈ lowNames threshold models gs
      ↔ ∃ g ∈ gs, g.name = n ∧ lowGroup threshold models g = true := by
  intro gs
  induction gs with
  | nil => simp [lowNames]
  | cons g gs ih =>
      by_cases hg : lowGroup threshold models g
      · simp only [lowNames, if_pos hg, Finset.mem_insert, ih]
        constructor
        · rintro (h | ⟨g1, hg1, hn1, hl1⟩)
          · exact ⟨g, List.mem_cons_self _ _, h.symm, hg⟩
          · exact ⟨g1, List.mem_cons_of_mem _ hg1, hn1, hl1⟩
        · rintro ⟨g1, hg1, hn1, hl1⟩
          rcases List.mem_cons.mp hg1 with h1 | h1
          · subst h1; exact Or.inl hn1.symm
          · exact Or.inr ⟨g1, h1, hn1, hl1⟩
      · simp only [lowNames, if_neg hg, ih]
        constructor
        · rintro ⟨g1, hg1, hn1, hl1⟩
          exact ⟨g1, List.mem_cons_of_mem _ hg1, hn1, hl1⟩
        · rintro ⟨g1, hg1, hn1, hl1⟩
          rcases List.mem_cons.mp hg1 with h1 | h1
          · subst h1; exact absurd hl1 (by simpa using hg)
          · exact ⟨g1, h1, hn1, hl1⟩

theorem union_insert_of_mem {N L : Finset String} {n : String} (h : n ∈ N) :
    N ∪ insert n L = N ∪ L := by
  ext x
  by_cases hx : x = n
  · subst hx; simp [h]
  · simp [hx]

theorem sdiff_insert_of_mem {W L N : Finset String} {n : String} (h : n ∈ N) :
    W ∪ (insert n L \ N) = W ∪ (L \ N) := by
  ext x
  by_cases hx : x = n
  · subst hx; simp [h]
  · simp [hx]

theorem union_singleton_sdiff {W L N : Finset String} {n : String} (h : n ∉ N) :
    (W ∪ {n}) ∪ (L \ insert n N) = W ∪ (insert n L \ N) := by
  ext x
  by_cases hx : x = n
  · subst hx; simp [h]
  · simp [hx]

/-- Invariant of the group loop: relative to an arbitrary accumulator, the
loop adds exactly the names of the currently low groups to `notified` and
`current`, and warns exactly for the low names not already notified. -/
theorem checkFold_spec (threshold : ℚ) (models : List ModelRecord) :
    ∀ (gs : List GroupDef) (acc : CheckAcc),
      (gs.foldl (checkGroup threshold models) acc).notified
          = acc.notified ∪ lowNames threshold models gs ∧
      (gs.foldl (checkGroup threshold models) acc).current
          = acc.current ∪ lowNames threshold models gs ∧
      (gs.foldl (checkGroup threshold models) acc).warnings.toFinset
          = acc.warnings.toFinset ∪ (lowNames threshold models gs \ acc.notified) := by
  intro gs
  induction gs with
  | nil => intro acc; simp [lowNames]
  | cons g gs ih =>
      intro acc
      rw [List.foldl_cons]
      rcases hg : groupModels models g.patterns with _ | ⟨m, ms⟩
      · -- no matching record: the loop body skips the group entirely
        have hcg : checkGroup threshold models acc g = acc := by
          simp [checkGroup, hg]
        have hlow : lowGroup threshold models g = false := by
          simp [lowGroup, hg]
        rw [hcg]
        simpa [lowNames, hlow] using ih acc
      · by_cases hle : (reduceWorst m ms).frac * 100 ≤ threshold
        · have hlow : lowGroup threshold models g = true := by
            simp [lowGroup, hg, hle]
          by_cases hn : g.name ∈ acc.notified
          · have hcg : checkGroup threshold models acc g
                = { acc with current := insert g.name acc.current } := by
              simp [checkGroup, hg, hle, hn]
            rw [hcg]
            obtain ⟨i1, i2, i3⟩ := ih { acc with current := insert g.name acc.current }
            refine ⟨?_, ?_, ?_⟩
            · rw [i1]
              simp only [lowNames, if_pos hlow]
              exact (union_insert_of_mem hn).symm
            · rw [i2]
              simp only [lowNames, if_pos hlow]
              ext x
              by_cases hx : x = g.name
              · subst hx; simp
              · simp [hx]
            · rw [i3]
              simp only [lowNames, if_pos hlow]
              exact (sdiff_insert_of_mem hn).symm
          · have hcg : checkGroup threshold models acc g
                = { notified := insert g.name acc.notified
                    current := insert g.name acc.current
                    warnings := acc.warnings ++ [g.name] } := by
              simp [checkGroup, hg, hle, hn]
            rw [hcg]
            obtain ⟨i1, i2, i3⟩ := ih
              { notified := insert g.name acc.notified
                current := insert g.name acc.current
                warnings := acc.warnings ++ [g.name] }
            refine ⟨?_, ?_, ?_⟩
            · rw [i1]
              simp only [lowNames, if_pos hlow]
              ext x
              by_cases hx : x = g.name
              · subst hx; simp
              · simp [hx]
            · rw [i2]
              simp only [lowNames, if_pos hlow]
              ext x
              by_cases hx : x = g.name
              · subst hx; simp
              · simp [hx]
            · rw [i3]
              simp only [lowNames, if_pos hlow, List.toFinset_append,
                List.toFinset_cons, List.toFinset_nil, insert_emptyc_eq]
              exact union_singleton_sdiff hn
        · have hcg : checkGroup threshold models acc g = acc := by
            simp [checkGroup, hg, hle]
          have hlow : lowGroup threshold models g = false := by
            simp [lowGroup, hg, hle]
          rw [hcg]
          simpa [lowNames, hlow] using ih acc

/-- After a check, the notified set is exactly the set of currently low group
names (the final loop of the code deletes every other name). -/
theorem checkLowQuota_fst (threshold : ℚ) (models : List ModelRecord)
    (groups : List GroupDef) (notified : Finset String) :
    (checkLowQuota threshold models groups notified).1
      = lowNames threshold models groups := by
  obtain ⟨i1, i2, i3⟩ := checkFold_spec threshold models groups ⟨notified, ∅, []⟩
  simp only [checkLowQuota, i1, i2]
  ext x
  simp only [Finset.mem_filter, Finset.mem_union, Finset.empty_union]
  tauto

/-- A check warns exactly for the currently low group names that were not
already notified. -/
theorem checkLowQuota_snd (threshold : ℚ) (models : List ModelRecord)
    (groups : List GroupDef) (notified : Finset String) :
    (checkLowQuota threshold models groups notified).2.toFinset
      = lowNames threshold models groups \ notified := by
  obtain ⟨i1, i2, i3⟩ := checkFold_spec threshold models groups ⟨notified, ∅, []⟩
  simp only [checkLowQuota, i3, List.toFinset_nil]
  ext x
  simp

/-- A sequence of notification checks, one per refresh: each refresh replaces
the cached records and runs `checkLowQuota` on them, threading the notified
set. Returns the warning list of every refresh, in order. -/
def runChecks (threshold : ℚ) (groups : List GroupDef) :
    Finset String → List (List ModelRecord) → List (List String)
  | _, [] => []
  | notified, models :: rest =>
      (checkLowQuota threshold models groups notified).2
        :: runChecks threshold groups
            (checkLowQuota threshold models groups notified).1 rest

theorem runChecks_cons (threshold : ℚ) (groups : List GroupDef)
    (notified : Finset String) (models : List ModelRecord)
    (rest : List (List ModelRecord)) :
    runChecks threshold groups notified (models :: rest)
      = (checkLowQuota threshold models groups notified).2
        :: runChecks threshold groups
            (checkLowQuota threshold models groups notified).1 rest := rfl

/-- C2 (amended): once a group's name is in the notified set, no further
warning is emitted for it across any sequence of refreshes in each of which
the group stays low (matched, unrounded percentage at most the threshold).
Hence a second warning requires an intervening refresh in which the group was
not low — because it recovered above the threshold or because it had no
matching record at all; the original claim admitted only the former. -/
theorem debounce_no_rewarn_while_low (threshold : ℚ) (groups : List GroupDef)
    (n : String) :
    ∀ (seq : List (List ModelRecord)) (notified : Finset String),
      n ∈ notified →
      (∀ models ∈ seq, n ∈ lowNames threshold models groups) →
      n ∉ (runChecks threshold groups notified seq).flatten := by
  intro seq
  induction seq with
  | nil =>
      intro N h1 h2
      simp [runChecks]
  | cons M rest ih =>
      intro N h1 h2
      rw [runChecks_cons]
      intro hmem
      rcases (by simpa using hmem :
          n ∈ (checkLowQuota threshold M groups N).2 ∨
            ∃ l ∈ runChecks threshold groups
                (checkLowQuota threshold M groups N).1 rest, n ∈ l) with hc | hc
      · have hfin : n ∈ (checkLowQuota threshold M groups N).2.toFinset :=
          List.mem_toFinset.mpr hc
        rw [checkLowQuota_snd] at hfin
        exact (Finset.mem_sdiff.mp hfin).2 h1
      · have hN : n ∈ (checkLowQuota threshold M groups N).1 := by
          rw [checkLowQuota_fst]
          exact h2 M (List.mem_cons_self _ _)
        exact ih (checkLowQuota threshold M groups N).1 hN
          (fun models hm => h2 models (List.mem_cons_of_mem _ hm))
          (List.mem_flatten.mpr hc)

/-- C2 (counterexample): with threshold 20 and one group `G` matching label
`x`, the refresh sequence (one record at 10 percent; no records; the record
again) warns at the first and at the third refresh, although the middle
refresh had zero matching records and the group never recovered above the
threshold — refuting "a second warning can only occur after an intervening
refresh in which the group recovered above threshold". -/
theorem debounce_absence_counterexample :
    runChecks 20 [⟨"G", ["x"]⟩] ∅
        [[⟨"x", some ⟨some (mkRat 1 10), none⟩⟩], [],
         [⟨"x", some ⟨some (mkRat 1 10), none⟩⟩]]
      = [["G"], [], ["G"]] ∧
    groupModels [] ["x"] = [] ∧
    worstPercent [] ["x"] = none := by decide

/-- Witness for C2: a concrete notified group that stays low in one further
refresh and is never re-warned. -/
theorem debounce_no_rewarn_while_low_witness :
    "G" ∉ (runChecks 20 [⟨"G", ["x"]⟩] {"G"}
        [[⟨"x", some ⟨some (mkRat 1 10), none⟩⟩]]).flatten :=
  debounce_no_rewarn_while_low 20 [⟨"G", ["x"]⟩] "G"
    [[⟨"x", some ⟨some (mkRat 1 10), none⟩⟩]] {"G"}
    (by decide) (by decide)

/-- C3 (counterexample): a record with fraction `0.204` gives rounded worst
percentage 20, which is at most the default threshold 20, and the name is not
yet notified — yet `checkLowQuota` emits no warning and does not add the name,
because the code compares the unrounded value `20.4` against the threshold. -/
theorem rounded_threshold_counterexample :
    worstPercent [⟨"x claude", some ⟨some (mkRat 51 250), none⟩⟩] ["claude"]
      = some 20 ∧
    ((20 : ℤ) ≤ 20) ∧
    (checkLowQuota 20 [⟨"x claude", some ⟨some (mkRat 51 250), none⟩⟩]
        [⟨"Claude", ["claude"]⟩] ∅).2 = [] ∧
    "Claude" ∉ (checkLowQuota 20 [⟨"x claude", some ⟨some (mkRat 51 250), none⟩⟩]
        [⟨"Claude", ["claude"]⟩] ∅).1 := by decide

/-- C3 (amended): for a group with at least one matching record, a warning is
emitted exactly when the unrounded percentage `100 * minimum fraction` is at
most the threshold and the name is not already notified; the rounded integer
percentage plays no part in the comparison (a minimum fraction of `0.204`
does not trigger under threshold 20). -/
theorem warning_iff_unrounded_le (threshold : ℚ) (models : List ModelRecord)
    (g : GroupDef) (notified : Finset String) (m : ModelRecord)
    (ms : List ModelRecord) (h : groupModels models g.patterns = m :: ms) :
    (checkLowQuota threshold models [g] notified).2
      = if (reduceWorst m ms).frac * 100 ≤ threshold ∧ g.name ∉ notified
        then [g.name] else [] := by
  simp only [checkLowQuota, List.foldl_cons, List.foldl_nil, checkGroup, h]
  by_cases h1 : (reduceWorst m ms).frac * 100 ≤ threshold
  · by_cases h2 : g.name ∈ notified
    · simp [h1, h2]
    · simp [h1, h2]
  · simp [h1]

/-- Witness for C3 (amended): the `0.204` record against threshold 20. -/
theorem warning_iff_unrounded_le_witness :
    (checkLowQuota 20 [⟨"x claude", some ⟨some (mkRat 51 250), none⟩⟩]
        [⟨"Claude", ["claude"]⟩] ∅).2
      = if (reduceWorst ⟨"x claude", some ⟨some (mkRat 51 250), none⟩⟩ []).frac * 100 ≤ 20
            ∧ "Claude" ∉ (∅ : Finset String)
        then ["Claude"] else [] :=
  warning_iff_unrounded_le 20 [⟨"x claude", some ⟨some (mkRat 51 250), none⟩⟩]
    ⟨"Claude", ["claude"]⟩ ∅ ⟨"x claude", some ⟨some (mkRat 51 250), none⟩⟩ []
    (by decide)

/-- C4 (counterexample): a notified name whose group has zero matching records
in the next check is removed from the notified set by that check — absence
alone does clear it, refuting the claim. -/
theorem absence_clears_counterexample :
    "Claude" ∈ ({"Claude"} : Finset String) ∧
    groupModels [] ["claude"] = [] ∧
    (checkLowQuota 20 [] [⟨"Claude", ["claude"]⟩] {"Claude"}).1 = ∅ := by decide

/-- C4 (amended): after every check the notified set equals exactly the set of
currently low group names; a notified name is therefore removed by any check
in which its group is not low — whether it recovered above the threshold or
simply has no matching records. -/
theorem notified_eq_lowNames (threshold : ℚ) (models : List ModelRecord)
    (groups : List GroupDef) (notified : Finset String) :
    (checkLowQuota threshold models groups notified).1
      = lowNames threshold models groups :=
  checkLowQuota_fst threshold models groups notified

/-- C10: a group whose pattern list is empty matches zero records, so it is
never low, is skipped by the check, and its name can never enter the notified
set or the warning list. -/
theorem empty_patterns_never_notified (threshold : ℚ)
    (models : List ModelRecord) (groups : List GroupDef)
    (notified : Finset String) (n : String)
    (h : ∀ g ∈ groups, g.name = n → g.patterns = []) :
    groupModels models [] = [] ∧
    n ∉ (checkLowQuota threshold models groups notified).1 ∧
    n ∉ (checkLowQuota threshold models groups notified).2 := by
  have hempty : ∀ M : List ModelRecord, groupModels M ([] : List String) = [] := by
    intro M
    simp [groupModels, labelMatches]
  have hnotlow : n ∉ lowNames threshold models groups := by
    rw [mem_lowNames]
    rintro ⟨g, hgmem, hgname, hglow⟩
    have hpat := h g hgmem hgname
    rw [show lowGroup threshold models g
          = (match groupModels models g.patterns with
             | [] => false
             | m :: ms => decide ((reduceWorst m ms).frac * 100 ≤ threshold))
        from rfl, hpat, hempty models] at hglow
    exact Bool.false_ne_true hglow
  refine ⟨hempty models, ?_, ?_⟩
  · rw [checkLowQuota_fst]
    exact hnotlow
  · intro hmem
    have hfin : n ∈ (checkLowQuota threshold models groups notified).2.toFinset :=
      List.mem_toFinset.mpr hmem
    rw [checkLowQuota_snd] at hfin
    exact hnotlow (Finset.mem_sdiff.mp hfin).1

/-- Witness for C10: one empty-pattern group over a nonempty record list. -/
theorem empty_patterns_never_notified_witness :
    groupModels [⟨"x", (none : Option QuotaInfo)⟩] [] = [] ∧
    "E" ∉ (checkLowQuota 20 [⟨"x", (none : Option QuotaInfo)⟩]
        [⟨"E", []⟩] ∅).1 ∧
    "E" ∉ (checkLowQuota 20 [⟨"x", (none : Option QuotaInfo)⟩]
        [⟨"E", []⟩] ∅).2 :=
  empty_patterns_never_notified 20 [⟨"x", (none : Option QuotaInfo)⟩]
    [⟨"E", []⟩] ∅ "E" (by decide)

/-- Witness for C1: records with fractions 0.9, 0.15 and 0.5 all matching one
group report 15 percent, attained first (and only) by the second record. -/
theorem worstPercent_correct_witness :
    worstPercent
        [⟨"m a", some ⟨some (mkRat 9 10), none⟩⟩,
         ⟨"m b", some ⟨some (mkRat 3 20), none⟩⟩,
         ⟨"m c", some ⟨some (mkRat 1 2), none⟩⟩] ["m"]
      = some (round
          (100 * minFracQ (ModelRecord.frac ⟨"m a", some ⟨some (mkRat 9 10), none⟩⟩)
            [⟨"m b", some ⟨some (mkRat 3 20), none⟩⟩,
             ⟨"m c", some ⟨some (mkRat 1 2), none⟩⟩])) ∧
    worstPercent
        [⟨"m a", some ⟨some (mkRat 9 10), none⟩⟩,
         ⟨"m b", some ⟨some (mkRat 3 20), none⟩⟩,
         ⟨"m c", some ⟨some (mkRat 1 2), none⟩⟩] ["m"] = some 15 :=
  ⟨(worstPercent_correct
      [⟨"m a", some ⟨some (mkRat 9 10), none⟩⟩,
       ⟨"m b", some ⟨some (mkRat 3 20), none⟩⟩,
       ⟨"m c", some ⟨some (mkRat 1 2), none⟩⟩] ["m"]
      ⟨"m a", some ⟨some (mkRat 9 10), none⟩⟩
      [⟨"m b", some ⟨some (mkRat 3 20), none⟩⟩,
       ⟨"m c", some ⟨some (mkRat 1 2), none⟩⟩] (by decide)).1,
   by decide⟩

/-! Embedding of `QuotaService.refresh` and the candidate fetch loop. -/

/-- A discovery candidate: a listening port paired with the CSRF token, one
element of the list `findLanguageServerPorts` returns. -/
structure Candidate where
  port : String
  csrf : String
deriving Repr, DecidableEq

/-- Outcome of one HTTP attempt against a candidate port: a transport-level
error (the inner catch path), or a response with success flag `ok` and the
optional record list found under the nested body path
`userStatus.cascadeModelConfigData.clientModelConfigs`. -/
inductive FetchResult where
  | transportError : FetchResult
  | response (ok : Bool) (body : Option (List ModelRecord)) : FetchResult
deriving Repr, DecidableEq

/-- Engine configuration, the `antigravityQuotas` settings the code reads:
refresh interval in milliseconds, low-quota threshold, group definitions. -/
structure Config where
  refreshIntervalMs : ℕ
  lowQuotaThreshold : ℚ
  groups : List GroupDef

/-- One refresh's environment: what discovery returns, how the network answers
each port, the current time, and an exception raised at the start of the
`try` block when present (the code's outer catch handles it; it fires before
discovery, so cache and notified set are untouched by that path). -/
structure Env where
  candidates : List Candidate
  net : String → FetchResult
  now : ℕ
  internalError : Option String

/-- The engine state mutated by `refresh`. -/
structure EngineState where
  cachedModels : List ModelRecord
  lastError : Option String
  isRefreshing : Bool
  nextFetchTime : ℕ
  notifiedGroups : Finset String
deriving DecidableEq

/-- Observable side effects of a refresh, in order: a discovery invocation, an
HTTP request to a port, a user-facing warning for a group. -/
inductive Event where
  | discovery : Event
  | request (port : String) : Event
  | warn (name : String) : Event
deriving Repr, DecidableEq

/-- The port of a request event, for extracting the attempted ports. -/
def requestPort : Event → Option String
  | Event.request p => some p
  | _ => none

/-- The fixed retry delay of the outer catch: 30000 milliseconds. -/
def RETRY_DELAY_MS : ℕ := 30000

/-- The candidate loop of `refresh`: try each port in the supplied order, skip
transport errors and non-success statuses, stop at the first success and
parse its body (`data.userStatus?...clientModelConfigs || []`, an absent path
giving the empty list). Returns the parsed list on success or `none` when
every candidate is exhausted, paired with the requests issued in order. -/
def fetchLoop (net : String → FetchResult) :
    List Candidate → Option (List ModelRecord) × List Event
  | [] => (none, [])
  | c :: rest =>
      match net c.port with
      | FetchResult.transportError =>
          ((fetchLoop net rest).1, Event.request c.port :: (fetchLoop net rest).2)
      | FetchResult.response ok body =>
          if ok then (some (body.getD []), [Event.request c.port])
          else ((fetchLoop net rest).1, Event.request c.port :: (fetchLoop net rest).2)

/-- The embedding of `QuotaService.refresh`: a no-op while already refreshing;
otherwise either the outer catch path (internal exception: record the message
and retry after the fixed delay) or the normal path (discovery, candidate
loop, wholesale cache replacement, low-quota check, deadline advance by the
configured interval). Returns the state after the call and the effect trace. -/
def refresh (cfg : Config) (env : Env) (s : EngineState) :
    EngineState × List Event :=
  if s.isRefreshing then (s, [])
  else
    match env.internalError with
    | some msg =>
        ({ s with lastError := some msg
                  nextFetchTime := env.now + RETRY_DELAY_MS
                  isRefreshing := false }, [])
    | none =>
        let s1 :=
          if env.candidates.isEmpty then
            { s with cachedModels := []
                     lastError := some "Language server not found." }
          else
            match fetchLoop env.net env.candidates with
            | (some models, _) =>
                { s with cachedModels := models, lastError := none }
            | (none, _) =>
                { s with cachedModels := []
                         lastError := some "Failed to connect to language server." }
        let tr :=
          if env.candidates.isEmpty then []
          else (fetchLoop env.net env.candidates).2
        let check := checkLowQuota cfg.lowQuotaThreshold s1.cachedModels
            cfg.groups s1.notifiedGroups
        ({ s1 with notifiedGroups := check.1
                   nextFetchTime := env.now + cfg.refreshIntervalMs
                   isRefreshing := false },
         Event.discovery :: (tr ++ check.2.map Event.warn))

theorem filterMap_requestPort_warns (l : List String) :
    (l.map Event.warn).filterMap requestPort = [] := by
  induction l with
  | nil => rfl
  | cons a t ih => simp [requestPort, ih]

/-- C7: calling `refresh` while a refresh is already in flight is a no-op:
the state is returned unchanged and no discovery call, network request or
warning is issued. -/
theorem refresh_noop_when_refreshing (cfg : Config) (env : Env)
    (s : EngineState) (h : s.isRefreshing = true) :
    refresh cfg env s = (s, []) := by
  simp [refresh, h]

/-- Witness for C7: a concrete in-flight state is left untouched. -/
theorem refresh_noop_when_refreshing_witness :
    refresh ⟨30000, 20, []⟩ ⟨[], fun _ => FetchResult.transportError, 0, none⟩
        ⟨[], none, true, 0, ∅⟩
      = (⟨[], none, true, 0, ∅⟩, []) :=
  refresh_noop_when_refreshing _ _ _ rfl

/-- C5: with two discovered candidates, the first answering with a non-success
status and the second with a success status carrying one record, the refresh
ends with exactly that parsed single-record list cached and `lastError`
cleared, and the requests show both ports attempted in the supplied order
with iteration stopping at the success. -/
theorem refresh_first_success (cfg : Config) (env : Env) (s : EngineState)
    (c1 c2 : Candidate) (r : ModelRecord) (b : Option (List ModelRecord))
    (hs : s.isRefreshing = false)
    (he : env.internalError = none)
    (hc : env.candidates = [c1, c2])
    (hr : r.frac = mkRat 1 20)
    (h1 : env.net c1.port = FetchResult.response false b)
    (h2 : env.net c2.port = FetchResult.response true (some [r])) :
    (refresh cfg env s).1.cachedModels = [r] ∧
    (refresh cfg env s).1.lastError = none ∧
    (refresh cfg env s).2.filterMap requestPort = [c1.port, c2.port] := by
  have hloop : fetchLoop env.net [c1, c2]
      = (some [r], [Event.request c1.port, Event.request c2.port]) := by
    simp [fetchLoop, h1, h2]
  refine ⟨?_, ?_, ?_⟩ <;>
    simp [refresh, hs, he, hc, hloop, requestPort, filterMap_requestPort_warns]

/-- Witness for C5: a concrete two-candidate refresh with an HTTP 500 on the
first port and a one-record success on the second. -/
theorem refresh_first_success_witness :
    (refresh ⟨30000, 20, []⟩
        ⟨[⟨"40001", "tok"⟩, ⟨"40002", "tok"⟩],
         fun p => if p = "40001" then FetchResult.response false none
                  else FetchResult.response true
                    (some [⟨"model a", some ⟨some (mkRat 1 20), none⟩⟩]),
         0, none⟩
        ⟨[], some "stale", false, 0, ∅⟩).1.cachedModels
      = [⟨"model a", some ⟨some (mkRat 1 20), none⟩⟩] ∧
    (refresh ⟨30000, 20, []⟩
        ⟨[⟨"40001", "tok"⟩, ⟨"40002", "tok"⟩],
         fun p => if p = "40001" then FetchResult.response false none
                  else FetchResult.response true
                    (some [⟨"model a", some ⟨some (mkRat 1 20), none⟩⟩]),
         0, none⟩
        ⟨[], some "stale", false, 0, ∅⟩).1.lastError = none ∧
    (refresh ⟨30000, 20, []⟩
        ⟨[⟨"40001", "tok"⟩, ⟨"40002", "tok"⟩],
         fun p => if p = "40001" then FetchResult.response false none
                  else FetchResult.response true
                    (some [⟨"model a", some ⟨some (mkRat 1 20), none⟩⟩]),
         0, none⟩
        ⟨[], some "stale", false, 0, ∅⟩).2.filterMap requestPort
      = ["40001", "40002"] :=
  refresh_first_success _ _ _ ⟨"40001", "tok"⟩ ⟨"40002", "tok"⟩
    ⟨"model a", some ⟨some (mkRat 1 20), none⟩⟩ none
    rfl rfl rfl rfl (by decide) (by decide)

/-- C6: a success-status response whose body lacks the nested quota path is
still a successful fetch: the cached records become the empty list and
`lastError` is cleared, with no error surfaced for zero models. -/
theorem refresh_missing_path_success (cfg : Config) (env : Env)
    (s : EngineState) (c : Candidate) (rest : List Candidate)
    (hs : s.isRefreshing = false)
    (he : env.internalError = none)
    (hc : env.candidates = c :: rest)
    (h1 : env.net c.port = FetchResult.response true none) :
    (refresh cfg env s).1.cachedModels = [] ∧
    (refresh cfg env s).1.lastError = none := by
  have hloop : fetchLoop env.net (c :: rest)
      = (some [], [Event.request c.port]) := by
    simp [fetchLoop, h1]
  constructor <;> simp [refresh, hs, he, hc, hloop]

/-- Witness for C6: a concrete success response with no quota path. -/
theorem refresh_missing_path_success_witness :
    (refresh ⟨30000, 20, []⟩
        ⟨[⟨"40001", "tok"⟩], fun _ => FetchResult.response true none, 0, none⟩
        ⟨[⟨"old", none⟩], some "stale", false, 0, ∅⟩).1.cachedModels = [] ∧
    (refresh ⟨30000, 20, []⟩
        ⟨[⟨"40001", "tok"⟩], fun _ => FetchResult.response true none, 0, none⟩
        ⟨[⟨"old", none⟩], some "stale", false, 0, ∅⟩).1.lastError = none :=
  refresh_missing_path_success _ _ _ ⟨"40001", "tok"⟩ [] rfl rfl rfl rfl

/-- C8 (counterexample): a discovery failure (empty candidate list) with a
configured interval of 60000 ms advances the deadline by the configured
interval, not by the fixed 30000 ms retry delay the claim asserts for every
failure. -/
theorem retry_delay_counterexample :
    (refresh ⟨60000, 20, []⟩ ⟨[], fun _ => FetchResult.transportError, 0, none⟩
        ⟨[], none, false, 0, ∅⟩).1.lastError
      = some "Language server not found." ∧
    (refresh ⟨60000, 20, []⟩ ⟨[], fun _ => FetchResult.transportError, 0, none⟩
        ⟨[], none, false, 0, ∅⟩).1.nextFetchTime = 60000 ∧
    (60000 : ℕ) ≠ 0 + RETRY_DELAY_MS := by decide

/-- C8 (amended): every non-exceptional refresh — success, discovery failure
or connectivity failure alike — advances the deadline to now plus the
configured interval; only the outer catch (an internal exception) advances it
to now plus the fixed 30000 ms retry delay. -/
theorem deadline_advance (cfg : Config) (env : Env) (s : EngineState)
    (hs : s.isRefreshing = false) :
    (env.internalError = none →
      (refresh cfg env s).1.nextFetchTime = env.now + cfg.refreshIntervalMs) ∧
    (∀ msg, env.internalError = some msg →
      (refresh cfg env s).1.nextFetchTime = env.now + RETRY_DELAY_MS) := by
  constructor
  · intro he
    by_cases hE : env.candidates.isEmpty
    · simp [refresh, hs, he, hE]
    · rcases hf : fetchLoop env.net env.candidates with ⟨o, tr⟩
      rcases o with _ | models <;> simp [refresh, hs, he, hE, hf]
  · intro msg hmsg
    simp [refresh, hs, hmsg]

/-- Witness for C8 (amended): a discovery-failure refresh with interval
60000 ms lands on now + 60000, and an exceptional refresh on now + 30000. -/
theorem deadline_advance_witness :
    (refresh ⟨60000, 20, []⟩ ⟨[], fun _ => FetchResult.transportError, 5, none⟩
        ⟨[], none, false, 0, ∅⟩).1.nextFetchTime = 5 + 60000 ∧
    (refresh ⟨60000, 20, []⟩
        ⟨[], fun _ => FetchResult.transportError, 5, some "boom"⟩
        ⟨[], none, false, 0, ∅⟩).1.nextFetchTime = 5 + RETRY_DELAY_MS :=
  ⟨(deadline_advance ⟨60000, 20, []⟩
      ⟨[], fun _ => FetchResult.transportError, 5, none⟩
      ⟨[], none, false, 0, ∅⟩ rfl).1 rfl,
   (deadline_advance ⟨60000, 20, []⟩
      ⟨[], fun _ => FetchResult.transportError, 5, some "boom"⟩
      ⟨[], none, false, 0, ∅⟩ rfl).2 "boom" rfl⟩

/-! Embedding of the port enumeration of `findLanguageServerPorts`. -/

/-- Splitting a character list at every newline: the embedding of
`stdout.split(String.fromCharCode 10)`. -/
def splitLines : List Char → List (List Char)
  | [] => [[]]
  | c :: rest =>
      if c = '\n' then [] :: splitLines rest
      else
        match splitLines rest with
        | [] => [[c]]
        | l :: ls => (c :: l) :: ls

/-- Substring test on character lists: the embedding of `line.includes(sub)`. -/
def charsInclude (hay needle : List Char) : Bool :=
  hay.tails.any (fun t => List.isPrefixOf needle t)

/-- First match of the regular expression "colon, digits, whitespace" in a
line, returning the captured digit run — the port extraction
`line.match(...)` of the Windows branch. The scan tries each position in
order, exactly as the regex engine does. -/
def firstPortMatch : List Char → Option (List Char)
  | [] => none
  | c :: rest =>
      if c = ':' then
        let ds := rest.takeWhile Char.isDigit
        if ds.isEmpty then firstPortMatch rest
        else
          match (rest.dropWhile Char.isDigit).head? with
          | some w => if w.isWhitespace then some ds else firstPortMatch rest
          | none => firstPortMatch rest
      else firstPortMatch rest

/-- The Windows branch of port enumeration: keep every netstat line containing
`LISTENING` and the process identifier, and push the first port match of each
such line — with no de-duplication. -/
def windowsPorts (netstatOut : String) (pid : String) : List String :=
  (splitLines netstatOut.data).filterMap (fun line =>
    if charsInclude line "LISTENING".data && charsInclude line pid.data then
      (firstPortMatch line).map (fun ds => String.mk ds)
    else none)

/-- All matches of the pattern "colon, digits, whitespace, literal (LISTEN)"
in the lsof output, in order, each reduced to its digit run — the Unix global
match composed with the per-match digit extraction. Resuming the scan right
after the colon is equivalent to resuming after the whole match, because no
later match can begin inside the consumed span: digits, whitespace and the
literal `(LISTEN)` contain no colon. -/
def listenPorts : List Char → List (List Char)
  | [] => []
  | c :: rest =>
      if c = ':' then
        let ds := rest.takeWhile Char.isDigit
        let r2 := rest.dropWhile Char.isDigit
        let ws := r2.takeWhile Char.isWhitespace
        let r3 := r2.dropWhile Char.isWhitespace
        if !ds.isEmpty && !ws.isEmpty && List.isPrefixOf "(LISTEN)".data r3 then
          ds :: listenPorts rest
        else listenPorts rest
      else listenPorts rest

/-- First-occurrence de-duplication with an explicit seen accumulator: the
embedding of spreading a JavaScript set, whose iteration preserves first
insertion order. -/
def dedupFirst (seen : List String) : List String → List String
  | [] => []
  | x :: xs =>
      if x ∈ seen then dedupFirst seen xs
      else x :: dedupFirst (x :: seen) xs

/-- The Unix branch of port enumeration: collect the `(LISTEN)` port matches
and de-duplicate them through a set. -/
def unixPorts (lsofOut : String) : List String :=
  dedupFirst [] ((listenPorts lsofOut.data).map (fun ds => String.mk ds))

/-- Pairing every discovered port with the single CSRF token: the final
`ports.map` of `findLanguageServerPorts`. -/
def toCandidates (ports : List String) (csrf : String) : List Candidate :=
  ports.map (fun p => ⟨p, csrf⟩)

theorem dedupFirst_spec :
    ∀ (xs seen : List String),
      (dedupFirst seen xs).Nodup ∧ ∀ y ∈ dedupFirst seen xs, y ∉ seen := by
  intro xs
  induction xs with
  | nil => intro seen; simp [dedupFirst]
  | cons x t ih =>
      intro seen
      by_cases hx : x ∈ seen
      · simpa [dedupFirst, hx] using ih seen
      · obtain ⟨h1, h2⟩ := ih (x :: seen)
        simp only [dedupFirst, if_neg hx]
        refine ⟨List.nodup_cons.mpr ⟨?_, h1⟩, ?_⟩
        · intro hmem
          exact (h2 x hmem) (List.mem_cons_self _ _)
        · intro y hy
          rcases List.mem_cons.mp hy with h | h
          · subst h; exact hx
          · intro hseen
            exact (h2 y h) (List.mem_cons_of_mem _ hseen)

/-- C9 (counterexample): two netstat lines for the same process listening on
port 42 on two interfaces produce the port twice — the Windows branch never
de-duplicates, refuting "each listening port at most once" on that platform. -/
theorem windows_ports_duplicate_counterexample :
    toCandidates (windowsPorts
        "  TCP    127.0.0.1:42    0.0.0.0:0    LISTENING    7\n  TCP    10.0.0.5:42    0.0.0.0:0    LISTENING    7"
        "7") "tok"
      = [⟨"42", "tok"⟩, ⟨"42", "tok"⟩] ∧
    ¬ (windowsPorts
        "  TCP    127.0.0.1:42    0.0.0.0:0    LISTENING    7\n  TCP    10.0.0.5:42    0.0.0.0:0    LISTENING    7"
        "7").Nodup := by decide

/-- C9 (amended): on Unix the candidate list contains each listening port at
most once, and on both platforms every candidate carries the same CSRF token;
the Windows branch, however, emits one entry per matching netstat line, so a
port listening on several interfaces appears several times there. -/
theorem ports_dedup_amended (lsofOut netstatOut pid csrf : String) :
    (unixPorts lsofOut).Nodup ∧
    (∀ c ∈ toCandidates (unixPorts lsofOut) csrf, c.csrf = csrf) ∧
    (∀ c ∈ toCandidates (windowsPorts netstatOut pid) csrf, c.csrf = csrf) := by
  refine ⟨(dedupFirst_spec _ []).1, ?_, ?_⟩ <;>
  · intro c hc
    rcases List.mem_map.mp hc with ⟨p, hp, hpc⟩
    rw [← hpc]

end AntigravityQuota
